import Mathlib

/-!
Shallow embedding of `src/contracts/Mod_IO_FHE.sol` (contract `ModIOFHE`).

Modelling conventions:
* `address` and `bytes32` values are `Nat` (0 plays the role of `address(0)`
  and of the zero `bytes32`); `block.timestamp` is an explicit `Nat` argument.
* `euint32` ciphertext handles are opaque symbolic values (`Handle`):
  the default storage value is the uninitialized handle, `FHE.asEuint32(n)`
  is a trivial-encryption handle, and `FHE.add` builds a symbolic sum handle.
  `FHE.toBytes32` is the identity on handles (an `euint32` is a wrapped
  `bytes32` handle).
* `keccak256(abi.encode(cts, address(this)))` in `_hashCiphertexts` is
  modelled collision-free, as an injective constructor over the ciphertext
  list and the contract address (`B32.hashCts`); the default `bytes32(0)` is
  the distinct `B32.zero`.
* `FHE.requestDecryption` (the external oracle) assigns fresh, monotonically
  increasing request identifiers, modelled by a `nextRequestId` counter.
* `FHE.checkSignatures` (the external proof verification) is modelled by an
  environment-supplied verdict `vpOk : Bool`; `false` makes the call revert.
* Reverts are `Except.error`; a reverted call leaves the pre-state unchanged
  (`exec`), matching the EVM's rollback of the whole call.
* `require(_, "msg")` / `revert(string(...))` reverts are represented by
  dedicated error constructors (`IntervalTooSmall` for "Interval too small",
  `InvalidSize` for "Invalid size", `NotPaused` for "Not paused",
  `ScoreNotInitialized` for the "score not initialized" revert in
  `_requireInitialized`).
* The OZ-style `initializer` modifier and `owner()` come from imported
  libraries (not in the repository's sources); they are modelled as a
  one-shot `initialized` flag and an `owner` field set to the deployer,
  per their standard semantics.
-/

namespace ModIOFHE

/-- Opaque `euint32` ciphertext handles of the external FHE capability:
`uninit` is the default (uninitialized) handle, `asEnc n` is
`FHE.asEuint32(n)`, `add a b` is the symbolic result of `FHE.add(a, b)`. -/
inductive Handle where
  | uninit : Handle
  | asEnc (n : Nat) : Handle
  | add (a b : Handle) : Handle
  deriving DecidableEq, Repr

/-- `FHE.isInitialized`: every handle except the default one is initialized. -/
def Handle.isInitialized : Handle → Bool
  | .uninit => false
  | _ => true

/-- `bytes32` values compared by the contract: the zero default, or the
keccak hash of an abi-encoded ciphertext list and contract address
(`_hashCiphertexts`), modelled collision-free. -/
inductive B32 where
  | zero : B32
  | hashCts (cts : List Handle) (addr : Nat) : B32
  deriving DecidableEq, Repr

/-- `address(this)`: a single fixed deployment address. -/
def thisAddress : Nat := 1

/-- `_hashCiphertexts(cts) = keccak256(abi.encode(cts, address(this)))`. -/
def hashCiphertexts (cts : List Handle) : B32 := B32.hashCts cts thisAddress

/-- The contract's custom errors, the `require`/`revert` string reverts, and
the reverts of the external capabilities. -/
inductive Err where
  | NotOwner | NotProvider | Paused | InvalidBatch | RateLimited | StaleWrite
  | ReplayAttempt | InvalidStateHash | BatchFull | BatchNotOpen | InvalidRequest
  | IntervalTooSmall | InvalidSize | NotPaused | ScoreNotInitialized
  | SignatureCheckFailed | AlreadyInitialized
  deriving DecidableEq, Repr

/-- The contract's events. -/
inductive Event where
  | ProviderAdded (provider : Nat)
  | ProviderRemoved (provider : Nat)
  | Paused (account : Nat)
  | Unpaused (account : Nat)
  | CooldownUpdated (oldInterval newInterval : Nat)
  | BatchOpened (batchId : Nat)
  | BatchClosed (batchId : Nat)
  | ModSubmitted (submitter batchId modId : Nat)
  | DecryptionRequested (requestId batchId : Nat) (stateHash : B32)
  | DecryptionComplete (requestId batchId totalScore : Nat)
  deriving DecidableEq, Repr

/-- `struct Batch`. -/
structure Batch where
  isOpen : Bool
  modCount : Nat
  modIds : List Nat
  encryptedAggregate : Handle
  deriving DecidableEq, Repr

/-- The default value of `batches[b]` for a never-touched key. -/
def emptyBatch : Batch :=
  { isOpen := false, modCount := 0, modIds := [], encryptedAggregate := .uninit }

/-- `struct DecryptionContext`. -/
structure DecryptionContext where
  batchId : Nat
  stateHash : B32
  processed : Bool
  requester : Nat
  deriving DecidableEq, Repr

/-- The default value of `decryptionContexts[r]` for a never-touched key. -/
def emptyCtx : DecryptionContext :=
  { batchId := 0, stateHash := .zero, processed := false, requester := 0 }

/-- The contract's storage, plus the library-held pieces it depends on
(`initialized`, `owner`) and the external oracle's request-id counter. -/
structure State where
  initialized : Bool
  owner : Nat
  paused : Bool
  cooldownInterval : Nat
  currentBatchId : Nat
  modelVersion : Nat
  maxBatchSize : Nat
  isProvider : Nat → Bool
  lastSubmissionAt : Nat → Nat
  lastRequestAt : Nat → Nat
  batches : Nat → Batch
  decryptionContexts : Nat → DecryptionContext
  encryptedScores : Nat → Handle
  modSubmitters : Nat → Nat
  modBatchIds : Nat → Nat
  nextRequestId : Nat

/-- `uint256 public constant MIN_INTERVAL = 5 seconds`. -/
def MIN_INTERVAL : Nat := 5

/-- Storage at deployment: declaration initializers
(`cooldownInterval = 30 seconds`, `maxBatchSize = 100`) and zero defaults. -/
def initialState : State :=
  { initialized := false
    owner := 0
    paused := false
    cooldownInterval := 30
    currentBatchId := 0
    modelVersion := 0
    maxBatchSize := 100
    isProvider := fun _ => false
    lastSubmissionAt := fun _ => 0
    lastRequestAt := fun _ => 0
    batches := fun _ => emptyBatch
    decryptionContexts := fun _ => emptyCtx
    encryptedScores := fun _ => .uninit
    modSubmitters := fun _ => 0
    modBatchIds := fun _ => 0
    nextRequestId := 0 }

/-- Result of an external call: a revert, or the new state with the
emitted events. -/
abbrev Res := Except Err (State × List Event)

/-- The two `bytes32 action` literals passed to the `rateLimited` modifier. -/
inductive Action where
  | submit | request
  deriving DecidableEq, Repr

/-- `modifier rateLimited(bytes32 action)`: per-address, per-action cooldown
check that stamps the per-address timestamp to the current time before the
guarded body runs. -/
def rateLimited (action : Action) (sender currentTime : Nat) (s : State) :
    Except Err State :=
  match action with
  | .submit =>
      if currentTime - s.lastSubmissionAt sender < s.cooldownInterval then
        .error .RateLimited
      else
        .ok { s with lastSubmissionAt :=
                fun a => if a = sender then currentTime else s.lastSubmissionAt a }
  | .request =>
      if currentTime - s.lastRequestAt sender < s.cooldownInterval then
        .error .RateLimited
      else
        .ok { s with lastRequestAt :=
                fun a => if a = sender then currentTime else s.lastRequestAt a }

/-- `_openBatch(batchId)`: stores a fresh open batch with an encrypted-zero
aggregate and emits `BatchOpened`. -/
def openBatchInternal (batchId : Nat) (s : State) : State × List Event :=
  ({ s with batches := fun b =>
       if b = batchId then
         { isOpen := true
           modCount := 0
           modIds := []
           encryptedAggregate := .asEnc 0 }
       else s.batches b },
   [.BatchOpened batchId])

/-- `initialize()`: one-shot set-up (`initializer` modifier), grants the
deployer the provider role, sets `modelVersion`/`currentBatchId` and opens
batch 1. -/
def initializeFn (sender : Nat) (s : State) : Res :=
  if s.initialized then .error .AlreadyInitialized
  else
    let s1 := { s with
                initialized := true
                owner := sender
                isProvider := fun a => if a = sender then true else s.isProvider a
                modelVersion := 1
                currentBatchId := 1 }
    .ok (openBatchInternal 1 s1)

/-- `setCooldownInterval(uint256)`. -/
def setCooldownInterval (sender newInterval : Nat) (s : State) : Res :=
  if sender ≠ s.owner then .error .NotOwner
  else if newInterval < MIN_INTERVAL then .error .IntervalTooSmall
  else .ok ({ s with cooldownInterval := newInterval },
            [.CooldownUpdated s.cooldownInterval newInterval])

/-- `setMaxBatchSize(uint256)`. -/
def setMaxBatchSize (sender newSize : Nat) (s : State) : Res :=
  if sender ≠ s.owner then .error .NotOwner
  else if newSize = 0 then .error .InvalidSize
  else .ok ({ s with maxBatchSize := newSize }, [])

/-- `pause()`. -/
def pauseFn (sender : Nat) (s : State) : Res :=
  if sender ≠ s.owner then .error .NotOwner
  else if s.paused then .error .Paused
  else .ok ({ s with paused := true }, [.Paused sender])

/-- `unpause()`. -/
def unpauseFn (sender : Nat) (s : State) : Res :=
  if sender ≠ s.owner then .error .NotOwner
  else if ¬ s.paused then .error .NotPaused
  else .ok ({ s with paused := false }, [.Unpaused sender])

/-- `addProvider(address)`. -/
def addProvider (sender provider : Nat) (s : State) : Res :=
  if sender ≠ s.owner then .error .NotOwner
  else .ok ({ s with isProvider := fun a => if a = provider then true else s.isProvider a },
            [.ProviderAdded provider])

/-- `removeProvider(address)`. -/
def removeProvider (sender provider : Nat) (s : State) : Res :=
  if sender ≠ s.owner then .error .NotOwner
  else .ok ({ s with isProvider := fun a => if a = provider then false else s.isProvider a },
            [.ProviderRemoved provider])

/-- `openBatch()`: advances `currentBatchId` and opens it. -/
def openBatchFn (sender : Nat) (s : State) : Res :=
  if sender ≠ s.owner then .error .NotOwner
  else
    let bid := s.currentBatchId + 1
    .ok (openBatchInternal bid { s with currentBatchId := bid })

/-- `closeBatch(uint256)`. -/
def closeBatch (sender batchId : Nat) (s : State) : Res :=
  if sender ≠ s.owner then .error .NotOwner
  else
    let batch := s.batches batchId
    if ¬ batch.isOpen then .error .InvalidBatch
    else .ok ({ s with batches := fun b =>
                  if b = batchId then { batch with isOpen := false } else s.batches b },
              [.BatchClosed batchId])

/-- `submitEncryptedMod(bytes32, euint32)`: modifiers `onlyProvider`,
`whenNotPaused`, `rateLimited("submit")` in order, then the uniqueness,
batch-open and capacity checks, then the storage writes. -/
def submitEncryptedMod (sender currentTime modId : Nat) (encryptedScore : Handle)
    (s : State) : Res :=
  if ¬ s.isProvider sender then .error .NotProvider
  else if s.paused then .error .Paused
  else
    match rateLimited .submit sender currentTime s with
    | .error e => .error e
    | .ok s1 =>
      if s1.modSubmitters modId ≠ 0 then .error .StaleWrite
      else if ¬ (s1.batches s1.currentBatchId).isOpen then .error .BatchNotOpen
      else
        let batch := s1.batches s1.currentBatchId
        if batch.modCount ≥ s1.maxBatchSize then .error .BatchFull
        else
          .ok ({ s1 with
                  modSubmitters := fun m => if m = modId then sender else s1.modSubmitters m
                  modBatchIds := fun m => if m = modId then s1.currentBatchId else s1.modBatchIds m
                  encryptedScores := fun m => if m = modId then encryptedScore else s1.encryptedScores m
                  batches := fun b =>
                    if b = s1.currentBatchId then
                      { batch with
                        modIds := batch.modIds ++ [modId]
                        modCount := batch.modCount + 1 }
                    else s1.batches b },
               [.ModSubmitted sender s1.currentBatchId modId])

/-- `_initIfNeeded(euint32)`: an uninitialized handle is replaced by the
trivial encryption of zero. -/
def initIfNeeded (x : Handle) : Handle :=
  if x.isInitialized then x else .asEnc 0

/-- The fold body of `requestBatchDecryption`: walks the batch's `modIds` in
recorded order, reads each `encryptedScores[modId]`, reverts
(`_requireInitialized`) on an uninitialized score handle, and otherwise
accumulates with `FHE.add`. -/
def foldScores (scores : Nat → Handle) : Handle → List Nat → Except Err Handle
  | acc, [] => .ok acc
  | acc, modId :: rest =>
      let score := scores modId
      if score.isInitialized then foldScores scores (.add acc score) rest
      else .error .ScoreNotInitialized

/-- `requestBatchDecryption(uint256)`: modifiers `whenNotPaused`,
`rateLimited("request")`; empty-batch check; full refold of the aggregate;
state-hash commitment; oracle request; context storage. -/
def requestBatchDecryption (sender currentTime batchId : Nat) (s : State) : Res :=
  if s.paused then .error .Paused
  else
    match rateLimited .request sender currentTime s with
    | .error e => .error e
    | .ok s1 =>
      let batch := s1.batches batchId
      if batch.modCount = 0 then .error .InvalidBatch
      else
        match foldScores s1.encryptedScores (initIfNeeded batch.encryptedAggregate) batch.modIds with
        | .error e => .error e
        | .ok aggregate =>
          let cts := [aggregate]
          let stateHash := hashCiphertexts cts
          let requestId := s1.nextRequestId
          .ok ({ s1 with
                  nextRequestId := requestId + 1
                  decryptionContexts := fun r =>
                    if r = requestId then
                      { batchId := batchId
                        stateHash := stateHash
                        processed := false
                        requester := sender }
                    else s1.decryptionContexts r },
               [.DecryptionRequested requestId batchId stateHash])

/-- `handleDecryptionCallback(uint256, bytes, bytes)`: a `public` function
with no caller restriction (`sender` is ignored by the code); replay check,
then the state-hash comparison against the *stored* batch aggregate, then
`FHE.checkSignatures` (verdict `vpOk`), then `abi.decode` of the cleartexts
(modelled as the encoded `uint256` itself) and finalization. -/
def handleDecryptionCallback (_sender : Nat) (vpOk : Bool)
    (requestId cleartexts _proof : Nat) (s : State) : Res :=
  if (s.decryptionContexts requestId).processed then .error .ReplayAttempt
  else
    let ctx := s.decryptionContexts requestId
    let batch := s.batches ctx.batchId
    let currentAggregate := initIfNeeded batch.encryptedAggregate
    let currentCts := [currentAggregate]
    let currentStateHash := hashCiphertexts currentCts
    if currentStateHash ≠ ctx.stateHash then .error .InvalidStateHash
    else if ¬ vpOk then .error .SignatureCheckFailed
    else
      let totalScore := cleartexts
      .ok ({ s with decryptionContexts := fun r =>
               if r = requestId then { ctx with processed := true }
               else s.decryptionContexts r },
           [.DecryptionComplete requestId ctx.batchId totalScore])

/-- One external call to the contract, with its environment inputs
(`sender`, `block.timestamp`, the oracle's signature verdict). -/
inductive Op where
  | initializeOp (sender : Nat)
  | setCooldownIntervalOp (sender newInterval : Nat)
  | setMaxBatchSizeOp (sender newSize : Nat)
  | pauseOp (sender : Nat)
  | unpauseOp (sender : Nat)
  | addProviderOp (sender provider : Nat)
  | removeProviderOp (sender provider : Nat)
  | openBatchOp (sender : Nat)
  | closeBatchOp (sender batchId : Nat)
  | submitOp (sender currentTime modId : Nat) (score : Handle)
  | requestOp (sender currentTime batchId : Nat)
  | callbackOp (sender : Nat) (vpOk : Bool) (requestId cleartexts proof : Nat)
  deriving DecidableEq, Repr

/-- Dispatch one call. -/
def runOp : Op → State → Res
  | .initializeOp sender, s => initializeFn sender s
  | .setCooldownIntervalOp sender n, s => setCooldownInterval sender n s
  | .setMaxBatchSizeOp sender n, s => setMaxBatchSize sender n s
  | .pauseOp sender, s => pauseFn sender s
  | .unpauseOp sender, s => unpauseFn sender s
  | .addProviderOp sender p, s => addProvider sender p s
  | .removeProviderOp sender p, s => removeProvider sender p s
  | .openBatchOp sender, s => openBatchFn sender s
  | .closeBatchOp sender b, s => closeBatch sender b s
  | .submitOp sender t m sc, s => submitEncryptedMod sender t m sc s
  | .requestOp sender t b, s => requestBatchDecryption sender t b s
  | .callbackOp sender v r c p, s => handleDecryptionCallback sender v r c p s

/-- The state after one call: a revert rolls the whole call back. -/
def exec (op : Op) (s : State) : State :=
  match runOp op s with
  | .ok (s', _) => s'
  | .error _ => s

/-- The state reached by a call trace from deployment. -/
def reach (l : List Op) : State :=
  l.foldl (fun s op => exec op s) initialState

/-- The `msg.sender` of a call. -/
def Op.sender : Op → Nat
  | .initializeOp a => a
  | .setCooldownIntervalOp a _ => a
  | .setMaxBatchSizeOp a _ => a
  | .pauseOp a => a
  | .unpauseOp a => a
  | .addProviderOp a _ => a
  | .removeProviderOp a _ => a
  | .openBatchOp a => a
  | .closeBatchOp a _ => a
  | .submitOp a _ _ _ => a
  | .requestOp a _ _ => a
  | .callbackOp a _ _ _ _ => a

/-- EVM environment assumption: `msg.sender` is a real account, never
`address(0)` (the model's 0). -/
abbrev GoodTrace (l : List Op) : Prop := ∀ op ∈ l, op.sender ≠ 0

/-- A state is reachable when some call trace from deployment (by real,
nonzero, senders) produces it. -/
def Reachable (s : State) : Prop := ∃ l, GoodTrace l ∧ reach l = s

/-- Structural facts that hold in every reachable state: batch ids above
`currentBatchId` and request ids at or above the oracle's counter are
untouched storage, and before `initialize` runs the whole ledger is in its
deployment default (with `owner()` still `address(0)`). -/
def WF (s : State) : Prop :=
  (∀ b, s.currentBatchId < b → s.batches b = emptyBatch) ∧
  (∀ r, s.nextRequestId ≤ r → s.decryptionContexts r = emptyCtx) ∧
  (s.initialized = false →
    s.owner = 0 ∧ s.currentBatchId = 0 ∧ ∀ b, s.batches b = emptyBatch)

/-- The calls named by the aggregate frame property: `submitEncryptedMod`,
`requestBatchDecryption` and `handleDecryptionCallback`. -/
def isSubmitRequestOrCallback : Op → Bool
  | .submitOp _ _ _ _ => true
  | .requestOp _ _ _ => true
  | .callbackOp _ _ _ _ _ => true
  | _ => false

/-- The `setMaxBatchSize` calls (the one operation that can move the
capacity bound below an existing batch's count). -/
def isSetMaxBatchSizeOp : Op → Bool
  | .setMaxBatchSizeOp _ _ => true
  | _ => false

/-- Deployment, then `initialize` by account 1, one submission of mod 5 with
an encrypted score of 10 at time 100, then `requestBatchDecryption(1)` at
time 100 (request id 0); no further submission lands afterwards. -/
def c1State : State :=
  reach [.initializeOp 1, .submitOp 1 100 5 (.asEnc 10), .requestOp 1 100 1]

/-- The concrete round-trip scenario of the spec: `initialize` by account 1,
submissions of mods 1 and 2 with encrypted values 10 and 5, then
`requestBatchDecryption(1)` (request id 0); no further submission lands. -/
def c2State : State :=
  reach [.initializeOp 1, .submitOp 1 100 1 (.asEnc 10), .submitOp 1 200 2 (.asEnc 5),
         .requestOp 1 100 1]

/-- A well-formed state holding one already-processed decryption context
(request id 0). -/
def c4State : State :=
  { initialState with
    decryptionContexts := fun r =>
      if r = 0 then { emptyCtx with processed := true } else emptyCtx
    nextRequestId := 1 }

/-- `initialize` by account 1, then a successful submission of mod 7. -/
def c6State : State :=
  reach [.initializeOp 1, .submitOp 1 100 7 (.asEnc 3)]

/-- Two successful submissions into batch 1, then the owner lowers
`maxBatchSize` to 1: the batch's count now exceeds the bound. -/
def c7State : State :=
  reach [.initializeOp 1, .submitOp 1 100 1 (.asEnc 1), .submitOp 1 200 2 (.asEnc 2),
         .setMaxBatchSizeOp 1 1]

/-- `maxBatchSize` lowered to 1, then one successful submission: batch 1 is
exactly full. -/
def c7bState : State :=
  reach [.initializeOp 1, .setMaxBatchSizeOp 1 1, .submitOp 1 100 1 (.asEnc 1)]

/-- A successful submission of mod 7 into batch 1, then the owner closes
batch 1 (which stays the current batch). -/
def c8State : State :=
  reach [.initializeOp 1, .submitOp 1 100 7 (.asEnc 1), .closeBatchOp 1 1]

/-! ## Helper lemmas: call outcomes and state frames -/

theorem exec_eq_of_error {op : Op} {s : State} {e : Err}
    (h : runOp op s = .error e) : exec op s = s := by
  simp [exec, h]

theorem exec_eq_of_ok {op : Op} {s s' : State} {ev : List Event}
    (h : runOp op s = .ok (s', ev)) : exec op s = s' := by
  simp [exec, h]

theorem initializeFn_ok {sender : Nat} {s s' : State} {ev : List Event}
    (h : initializeFn sender s = .ok (s', ev)) :
    s.initialized = false ∧
    s' = { s with
           initialized := true
           owner := sender
           isProvider := fun a => if a = sender then true else s.isProvider a
           modelVersion := 1
           currentBatchId := 1
           batches := fun b =>
             if b = 1 then
               { isOpen := true
                 modCount := 0
                 modIds := []
                 encryptedAggregate := .asEnc 0 }
             else s.batches b } := by
  simp only [initializeFn, openBatchInternal] at h
  split at h
  · exact absurd h (by simp)
  · next hinit =>
    simp only [Except.ok.injEq, Prod.mk.injEq] at h
    exact ⟨by simpa using hinit, h.1.symm⟩

theorem setCooldownInterval_ok {sender n : Nat} {s s' : State} {ev : List Event}
    (h : setCooldownInterval sender n s = .ok (s', ev)) :
    sender = s.owner ∧ s' = { s with cooldownInterval := n } := by
  simp only [setCooldownInterval] at h
  split at h
  · exact absurd h (by simp)
  · next hown =>
    split at h
    · exact absurd h (by simp)
    · simp only [Except.ok.injEq, Prod.mk.injEq] at h
      exact ⟨by simpa using hown, h.1.symm⟩

theorem setMaxBatchSize_ok {sender n : Nat} {s s' : State} {ev : List Event}
    (h : setMaxBatchSize sender n s = .ok (s', ev)) :
    sender = s.owner ∧ n ≠ 0 ∧ s' = { s with maxBatchSize := n } := by
  simp only [setMaxBatchSize] at h
  split at h
  · exact absurd h (by simp)
  · next hown =>
    split at h
    · exact absurd h (by simp)
    · next hn =>
      simp only [Except.ok.injEq, Prod.mk.injEq] at h
      exact ⟨by simpa using hown, hn, h.1.symm⟩

theorem pauseFn_ok {sender : Nat} {s s' : State} {ev : List Event}
    (h : pauseFn sender s = .ok (s', ev)) :
    sender = s.owner ∧ s' = { s with paused := true } := by
  simp only [pauseFn] at h
  split at h
  · exact absurd h (by simp)
  · next hown =>
    split at h
    · exact absurd h (by simp)
    · simp only [Except.ok.injEq, Prod.mk.injEq] at h
      exact ⟨by simpa using hown, h.1.symm⟩

theorem unpauseFn_ok {sender : Nat} {s s' : State} {ev : List Event}
    (h : unpauseFn sender s = .ok (s', ev)) :
    sender = s.owner ∧ s' = { s with paused := false } := by
  simp only [unpauseFn] at h
  split at h
  · exact absurd h (by simp)
  · next hown =>
    split at h
    · exact absurd h (by simp)
    · simp only [Except.ok.injEq, Prod.mk.injEq] at h
      exact ⟨by simpa using hown, h.1.symm⟩

theorem addProvider_ok {sender p : Nat} {s s' : State} {ev : List Event}
    (h : addProvider sender p s = .ok (s', ev)) :
    sender = s.owner ∧
    s' = { s with isProvider := fun a => if a = p then true else s.isProvider a } := by
  simp only [addProvider] at h
  split at h
  · exact absurd h (by simp)
  · next hown =>
    simp only [Except.ok.injEq, Prod.mk.injEq] at h
    exact ⟨by simpa using hown, h.1.symm⟩

theorem removeProvider_ok {sender p : Nat} {s s' : State} {ev : List Event}
    (h : removeProvider sender p s = .ok (s', ev)) :
    sender = s.owner ∧
    s' = { s with isProvider := fun a => if a = p then false else s.isProvider a } := by
  simp only [removeProvider] at h
  split at h
  · exact absurd h (by simp)
  · next hown =>
    simp only [Except.ok.injEq, Prod.mk.injEq] at h
    exact ⟨by simpa using hown, h.1.symm⟩

theorem openBatchFn_ok {sender : Nat} {s s' : State} {ev : List Event}
    (h : openBatchFn sender s = .ok (s', ev)) :
    sender = s.owner ∧
    s' = { s with
           currentBatchId := s.currentBatchId + 1
           batches := fun b =>
             if b = s.currentBatchId + 1 then
               { isOpen := true
                 modCount := 0
                 modIds := []
                 encryptedAggregate := .asEnc 0 }
             else s.batches b } := by
  simp only [openBatchFn, openBatchInternal] at h
  split at h
  · exact absurd h (by simp)
  · next hown =>
    simp only [Except.ok.injEq, Prod.mk.injEq] at h
    exact ⟨by simpa using hown, h.1.symm⟩

theorem closeBatch_ok {sender batchId : Nat} {s s' : State} {ev : List Event}
    (h : closeBatch sender batchId s = .ok (s', ev)) :
    sender = s.owner ∧ (s.batches batchId).isOpen = true ∧
    s' = { s with
           batches := fun b =>
             if b = batchId then { s.batches batchId with isOpen := false }
             else s.batches b } := by
  simp only [closeBatch] at h
  split at h
  · exact absurd h (by simp)
  · next hown =>
    split at h
    · exact absurd h (by simp)
    · next hopen =>
      simp only [Except.ok.injEq, Prod.mk.injEq] at h
      exact ⟨by simpa using hown, by simpa using hopen, h.1.symm⟩

theorem submitEncryptedMod_ok {sender t modId : Nat} {sc : Handle} {s s' : State}
    {ev : List Event} (h : submitEncryptedMod sender t modId sc s = .ok (s', ev)) :
    s.isProvider sender = true ∧ s.paused = false ∧
    ¬ (t - s.lastSubmissionAt sender < s.cooldownInterval) ∧
    s.modSubmitters modId = 0 ∧
    (s.batches s.currentBatchId).isOpen = true ∧
    (s.batches s.currentBatchId).modCount < s.maxBatchSize ∧
    s' = { s with
           lastSubmissionAt := fun a => if a = sender then t else s.lastSubmissionAt a
           modSubmitters := fun m => if m = modId then sender else s.modSubmitters m
           modBatchIds := fun m => if m = modId then s.currentBatchId else s.modBatchIds m
           encryptedScores := fun m => if m = modId then sc else s.encryptedScores m
           batches := fun b =>
             if b = s.currentBatchId then
               { s.batches s.currentBatchId with
                 modIds := (s.batches s.currentBatchId).modIds ++ [modId]
                 modCount := (s.batches s.currentBatchId).modCount + 1 }
             else s.batches b } := by
  simp only [submitEncryptedMod, rateLimited] at h
  split at h
  · exact absurd h (by simp)
  next hprov =>
  split at h
  · exact absurd h (by simp)
  next hpaused =>
  split at h
  · exact absurd h (by simp)
  next s1 hs1 =>
  split at hs1
  · exact absurd hs1 (by simp)
  next hcd =>
  simp only [Except.ok.injEq] at hs1
  subst hs1
  split at h
  · exact absurd h (by simp)
  next hstale =>
  split at h
  · exact absurd h (by simp)
  next hopen =>
  split at h
  · exact absurd h (by simp)
  next hfull =>
  simp only [Except.ok.injEq, Prod.mk.injEq] at h
  refine ⟨by simpa using hprov, by simpa using hpaused, hcd, by simpa using hstale,
          by simpa using hopen, by simpa using hfull, ?_⟩
  exact h.1.symm

theorem requestBatchDecryption_ok {sender t batchId : Nat} {s s' : State}
    {ev : List Event} (h : requestBatchDecryption sender t batchId s = .ok (s', ev)) :
    s.paused = false ∧
    ¬ (t - s.lastRequestAt sender < s.cooldownInterval) ∧
    (s.batches batchId).modCount ≠ 0 ∧
    ∃ aggregate,
      foldScores s.encryptedScores (initIfNeeded (s.batches batchId).encryptedAggregate)
          (s.batches batchId).modIds = .ok aggregate ∧
      s' = { s with
             lastRequestAt := fun a => if a = sender then t else s.lastRequestAt a
             nextRequestId := s.nextRequestId + 1
             decryptionContexts := fun r =>
               if r = s.nextRequestId then
                 { batchId := batchId
                   stateHash := hashCiphertexts [aggregate]
                   processed := false
                   requester := sender }
               else s.decryptionContexts r } := by
  simp only [requestBatchDecryption, rateLimited] at h
  split at h
  · exact absurd h (by simp)
  next hpaused =>
  split at h
  · exact absurd h (by simp)
  next s1 hs1 =>
  split at hs1
  · exact absurd hs1 (by simp)
  next hcd =>
  simp only [Except.ok.injEq] at hs1
  subst hs1
  split at h
  · exact absurd h (by simp)
  next hempty =>
  split at h
  · exact absurd h (by simp)
  next aggregate hfold =>
  simp only [Except.ok.injEq, Prod.mk.injEq] at h
  exact ⟨by simpa using hpaused, hcd, by simpa using hempty,
         aggregate, hfold, h.1.symm⟩

theorem handleDecryptionCallback_ok {sender : Nat} {vpOk : Bool} {rid ct pf : Nat}
    {s s' : State} {ev : List Event}
    (h : handleDecryptionCallback sender vpOk rid ct pf s = .ok (s', ev)) :
    (s.decryptionContexts rid).processed = false ∧
    hashCiphertexts [initIfNeeded ((s.batches (s.decryptionContexts rid).batchId).encryptedAggregate)]
      = (s.decryptionContexts rid).stateHash ∧
    vpOk = true ∧
    s' = { s with decryptionContexts := fun r =>
             if r = rid then { s.decryptionContexts rid with processed := true }
             else s.decryptionContexts r } ∧
    ev = [.DecryptionComplete rid (s.decryptionContexts rid).batchId ct] := by
  simp only [handleDecryptionCallback] at h
  split at h
  · exact absurd h (by simp)
  next hproc =>
  split at h
  · exact absurd h (by simp)
  next hhash =>
  split at h
  · exact absurd h (by simp)
  next hvp =>
  simp only [Except.ok.injEq, Prod.mk.injEq] at h
  refine ⟨by simpa using hproc, by simpa using hhash, by simpa using hvp,
          h.1.symm, h.2.symm⟩

theorem submitEncryptedMod_guards (sender t modId : Nat) (sc : Handle) (s : State)
    (hprov : s.isProvider sender = true) (hpaused : s.paused = false)
    (hcd : ¬ (t - s.lastSubmissionAt sender < s.cooldownInterval)) :
    submitEncryptedMod sender t modId sc s =
      if s.modSubmitters modId ≠ 0 then .error .StaleWrite
      else if ¬ (s.batches s.currentBatchId).isOpen = true then .error .BatchNotOpen
      else if (s.batches s.currentBatchId).modCount ≥ s.maxBatchSize then
        .error .BatchFull
      else
        .ok ({ s with
               lastSubmissionAt := fun a => if a = sender then t else s.lastSubmissionAt a
               modSubmitters := fun m => if m = modId then sender else s.modSubmitters m
               modBatchIds := fun m => if m = modId then s.currentBatchId else s.modBatchIds m
               encryptedScores := fun m => if m = modId then sc else s.encryptedScores m
               batches := fun b =>
                 if b = s.currentBatchId then
                   { s.batches s.currentBatchId with
                     modIds := (s.batches s.currentBatchId).modIds ++ [modId]
                     modCount := (s.batches s.currentBatchId).modCount + 1 }
                 else s.batches b },
             [.ModSubmitted sender s.currentBatchId modId]) := by
  simp only [submitEncryptedMod, rateLimited]
  rw [if_neg (by simp [hprov]), if_neg (by simp [hpaused]), if_neg hcd]

theorem requestBatchDecryption_guards (sender t b : Nat) (s : State)
    (hpaused : s.paused = false)
    (hcd : ¬ (t - s.lastRequestAt sender < s.cooldownInterval)) :
    requestBatchDecryption sender t b s =
      if (s.batches b).modCount = 0 then .error .InvalidBatch
      else
        match foldScores s.encryptedScores
            (initIfNeeded (s.batches b).encryptedAggregate) (s.batches b).modIds with
        | .error e => .error e
        | .ok aggregate =>
            .ok ({ s with
                   lastRequestAt := fun a => if a = sender then t else s.lastRequestAt a
                   nextRequestId := s.nextRequestId + 1
                   decryptionContexts := fun r =>
                     if r = s.nextRequestId then
                       { batchId := b
                         stateHash := hashCiphertexts [aggregate]
                         processed := false
                         requester := sender }
                     else s.decryptionContexts r },
                 [.DecryptionRequested s.nextRequestId b (hashCiphertexts [aggregate])]) := by
  simp only [requestBatchDecryption, rateLimited]
  rw [if_neg (by simp [hpaused]), if_neg hcd]

theorem foldScores_all_init {scores : Nat → Handle} {l : List Nat}
    (h : ∀ m ∈ l, (scores m).isInitialized = true) (acc : Handle) :
    foldScores scores acc l
      = .ok (l.foldl (fun a m => .add a (scores m)) acc) := by
  induction l generalizing acc with
  | nil => rfl
  | cons x xs ih =>
      have hx : (scores x).isInitialized = true := h x (List.mem_cons_self x xs)
      simp only [foldScores, hx, if_true, List.foldl_cons]
      exact ih (fun m hm => h m (List.mem_cons_of_mem x hm)) _

theorem foldScores_uninit {scores : Nat → Handle} {l : List Nat}
    (h : ∃ m ∈ l, (scores m).isInitialized = false) (acc : Handle) :
    foldScores scores acc l = .error .ScoreNotInitialized := by
  induction l generalizing acc with
  | nil => simp at h
  | cons x xs ih =>
      by_cases hx : (scores x).isInitialized = true
      · simp only [foldScores, hx, if_true]
        apply ih
        rcases h with ⟨m, hm, hmu⟩
        rcases List.mem_cons.mp hm with rfl | hm2
        · rw [hx] at hmu; cases hmu
        · exact ⟨m, hm2, hmu⟩
      · simp only [foldScores]
        rw [if_neg hx]

theorem wf_initialState : WF initialState :=
  ⟨fun _ _ => rfl, fun _ _ => rfl, fun _ => ⟨rfl, rfl, fun _ => rfl⟩⟩

theorem exec_preserves_wf (op : Op) (s : State) (hs : op.sender ≠ 0) (h : WF s) :
    WF (exec op s) := by
  obtain ⟨h1, h2, h3⟩ := h
  cases hr : runOp op s with
  | error e => rw [exec_eq_of_error hr]; exact ⟨h1, h2, h3⟩
  | ok p =>
    obtain ⟨s', ev⟩ := p
    rw [exec_eq_of_ok hr]
    cases op with
    | initializeOp sender =>
        simp only [runOp] at hr
        obtain ⟨hinit, rfl⟩ := initializeFn_ok hr
        refine ⟨?_, h2, ?_⟩
        · intro b hb
          have hb' : 1 < b := hb
          show (if b = 1 then _ else s.batches b) = emptyBatch
          rw [if_neg (by omega)]
          exact (h3 hinit).2.2 b
        · intro hc
          exact absurd hc (by simp)
    | setCooldownIntervalOp sender n =>
        simp only [runOp] at hr
        obtain ⟨hown, rfl⟩ := setCooldownInterval_ok hr
        exact ⟨h1, h2, h3⟩
    | setMaxBatchSizeOp sender n =>
        simp only [runOp] at hr
        obtain ⟨hown, hn, rfl⟩ := setMaxBatchSize_ok hr
        exact ⟨h1, h2, h3⟩
    | pauseOp sender =>
        simp only [runOp] at hr
        obtain ⟨hown, rfl⟩ := pauseFn_ok hr
        exact ⟨h1, h2, h3⟩
    | unpauseOp sender =>
        simp only [runOp] at hr
        obtain ⟨hown, rfl⟩ := unpauseFn_ok hr
        exact ⟨h1, h2, h3⟩
    | addProviderOp sender p =>
        simp only [runOp] at hr
        obtain ⟨hown, rfl⟩ := addProvider_ok hr
        exact ⟨h1, h2, h3⟩
    | removeProviderOp sender p =>
        simp only [runOp] at hr
        obtain ⟨hown, rfl⟩ := removeProvider_ok hr
        exact ⟨h1, h2, h3⟩
    | openBatchOp sender =>
        simp only [runOp] at hr
        obtain ⟨hown, rfl⟩ := openBatchFn_ok hr
        refine ⟨?_, h2, ?_⟩
        · intro b hb
          have hb' : s.currentBatchId + 1 < b := hb
          show (if b = s.currentBatchId + 1 then _ else s.batches b) = emptyBatch
          rw [if_neg (by omega)]
          exact h1 b (by omega)
        · intro hc
          have hc' : s.initialized = false := hc
          exact absurd (hown.trans (h3 hc').1) hs
    | closeBatchOp sender bId =>
        simp only [runOp] at hr
        obtain ⟨hown, hopen, rfl⟩ := closeBatch_ok hr
        refine ⟨?_, h2, ?_⟩
        · intro b hb
          have hb' : s.currentBatchId < b := hb
          show (if b = bId then _ else s.batches b) = emptyBatch
          by_cases hbb : b = bId
          · subst hbb
            rw [h1 b hb'] at hopen
            exact absurd hopen (by simp [emptyBatch])
          · rw [if_neg hbb]
            exact h1 b hb'
        · intro hc
          have hc' : s.initialized = false := hc
          rw [(h3 hc').2.2 bId] at hopen
          exact absurd hopen (by simp [emptyBatch])
    | submitOp sender t m sc =>
        simp only [runOp] at hr
        obtain ⟨hprov, hpaused, hcd, hstale, hopen, hfull, rfl⟩ := submitEncryptedMod_ok hr
        refine ⟨?_, h2, ?_⟩
        · intro b hb
          have hb' : s.currentBatchId < b := hb
          show (if b = s.currentBatchId then _ else s.batches b) = emptyBatch
          rw [if_neg (by omega)]
          exact h1 b hb'
        · intro hc
          have hc' : s.initialized = false := hc
          rw [(h3 hc').2.2 s.currentBatchId] at hopen
          exact absurd hopen (by simp [emptyBatch])
    | requestOp sender t bId =>
        simp only [runOp] at hr
        obtain ⟨hpaused, hcd, hne, agg, hfold, rfl⟩ := requestBatchDecryption_ok hr
        refine ⟨h1, ?_, h3⟩
        intro r hr2
        have hr2' : s.nextRequestId + 1 ≤ r := hr2
        show (if r = s.nextRequestId then _ else s.decryptionContexts r) = emptyCtx
        rw [if_neg (by omega)]
        exact h2 r (by omega)
    | callbackOp sender vp rid ct pf =>
        simp only [runOp] at hr
        obtain ⟨hproc, hhash, hvp, rfl, hev⟩ := handleDecryptionCallback_ok hr
        refine ⟨h1, ?_, h3⟩
        intro r hr2
        have hr2' : s.nextRequestId ≤ r := hr2
        show (if r = rid then _ else s.decryptionContexts r) = emptyCtx
        by_cases hbb : r = rid
        · subst hbb
          rw [h2 r hr2'] at hhash
          exact absurd hhash (by simp [hashCiphertexts, emptyCtx])
        · rw [if_neg hbb]
          exact h2 r hr2'

theorem wf_foldl (l : List Op) (s : State) (h : WF s)
    (hl : ∀ op ∈ l, op.sender ≠ 0) :
    WF (l.foldl (fun t op => exec op t) s) := by
  induction l generalizing s with
  | nil => exact h
  | cons op rest ih =>
      exact ih (exec op s)
        (exec_preserves_wf op s (hl op (List.mem_cons_self op rest)) h)
        (fun o ho => hl o (List.mem_cons_of_mem op ho))

theorem reachable_wf {s : State} (h : Reachable s) : WF s := by
  obtain ⟨l, hl, rfl⟩ := h
  exact wf_foldl l initialState wf_initialState hl

/-! ## The claims -/

/-- **C1.** The claim says `handleDecryptionCallback` recomputes the
aggregate of the context's batch the same way the request step does
(folding the encrypted-add over every submission in recorded order),
re-derives the state hash from that recomputed aggregate, and reverts with
`InvalidStateHash` iff that re-derived hash differs from the stored one.
On the code this fails: in `c1State` the batch is unchanged since the
request, the refold reproduces exactly the stored state hash (first two
conjuncts), yet the callback still reverts with `InvalidStateHash` (last
conjunct) — the callback hashes the stored `batch.encryptedAggregate`
(the never-updated encrypted-zero written by `_openBatch`) instead of
refolding the submissions. -/
theorem c1_callback_does_not_refold :
    foldScores c1State.encryptedScores
        (initIfNeeded ((c1State.batches 1).encryptedAggregate))
        ((c1State.batches 1).modIds)
      = .ok (.add (.asEnc 0) (.asEnc 10)) ∧
    hashCiphertexts [.add (.asEnc 0) (.asEnc 10)]
      = (c1State.decryptionContexts 0).stateHash ∧
    (c1State.decryptionContexts 0).processed = false ∧
    (c1State.decryptionContexts 0).batchId = 1 ∧
    (c1State.batches 1).modIds = [5] ∧
    handleDecryptionCallback 1 true 0 10 0 c1State = .error .InvalidStateHash :=
  ⟨rfl, rfl, rfl, rfl, rfl, rfl⟩

/-- **C2.** The spec's round-trip property: after submissions of encrypted
10 and 5 into batch 1 and a successful `requestBatchDecryption(1)` with no
further submission, the claim says the oracle callback (valid proof,
cleartext total 15) succeeds, marks the context processed and reports
total 15. On the code it instead reverts with `InvalidStateHash`: the
request hashed the folded aggregate while the callback hashes the stored
(encrypted-zero) aggregate, so no callback can ever match. -/
theorem c2_round_trip_callback_reverts :
    (c2State.decryptionContexts 0).batchId = 1 ∧
    (c2State.decryptionContexts 0).processed = false ∧
    (c2State.batches 1).modIds = [1, 2] ∧
    handleDecryptionCallback 1 true 0 15 0 c2State = .error .InvalidStateHash :=
  ⟨rfl, rfl, rfl, rfl⟩

/-- **C3.** In any well-formed state, `batches[b].encryptedAggregate` is
written exactly once, by `_openBatch`: (i) `submitEncryptedMod`,
`requestBatchDecryption` and `handleDecryptionCallback` never change any
batch's aggregate (their folded aggregates stay local); (ii) once the
aggregate is set (≠ the uninitialized default), no operation whatsoever
changes it; (iii) from the uninitialized default, the only possible write
is the encrypted-zero handle that `_openBatch` stores. -/
theorem c3_aggregate_written_only_at_open (s : State) (hw : WF s) (op : Op) (b : Nat) :
    (isSubmitRequestOrCallback op = true →
      ((exec op s).batches b).encryptedAggregate = (s.batches b).encryptedAggregate) ∧
    ((s.batches b).encryptedAggregate ≠ Handle.uninit →
      ((exec op s).batches b).encryptedAggregate = (s.batches b).encryptedAggregate) ∧
    ((s.batches b).encryptedAggregate = Handle.uninit →
      ((exec op s).batches b).encryptedAggregate = Handle.uninit ∨
      ((exec op s).batches b).encryptedAggregate = Handle.asEnc 0) := by
  obtain ⟨h1, h2, h3⟩ := hw
  cases hr : runOp op s with
  | error e =>
      rw [exec_eq_of_error hr]
      exact ⟨fun _ => rfl, fun _ => rfl, fun h => .inl h⟩
  | ok p =>
    obtain ⟨s', ev⟩ := p
    rw [exec_eq_of_ok hr]
    cases op with
    | initializeOp sender =>
        simp only [runOp] at hr
        obtain ⟨hinit, rfl⟩ := initializeFn_ok hr
        have hempty : ∀ b2, s.batches b2 = emptyBatch := (h3 hinit).2.2
        refine ⟨fun habs => by simp [isSubmitRequestOrCallback] at habs, ?_, ?_⟩
        · intro hne
          rw [hempty b] at hne
          exact absurd rfl hne
        · intro _
          show (if b = 1 then _ else s.batches b).encryptedAggregate = _ ∨
               (if b = 1 then _ else s.batches b).encryptedAggregate = _
          by_cases hbb : b = 1
          · subst hbb; rw [if_pos rfl]; exact .inr rfl
          · rw [if_neg hbb, hempty b]; exact .inl rfl
    | setCooldownIntervalOp sender n =>
        simp only [runOp] at hr
        obtain ⟨_, rfl⟩ := setCooldownInterval_ok hr
        exact ⟨fun _ => rfl, fun _ => rfl, fun h => .inl h⟩
    | setMaxBatchSizeOp sender n =>
        simp only [runOp] at hr
        obtain ⟨_, _, rfl⟩ := setMaxBatchSize_ok hr
        exact ⟨fun _ => rfl, fun _ => rfl, fun h => .inl h⟩
    | pauseOp sender =>
        simp only [runOp] at hr
        obtain ⟨_, rfl⟩ := pauseFn_ok hr
        exact ⟨fun _ => rfl, fun _ => rfl, fun h => .inl h⟩
    | unpauseOp sender =>
        simp only [runOp] at hr
        obtain ⟨_, rfl⟩ := unpauseFn_ok hr
        exact ⟨fun _ => rfl, fun _ => rfl, fun h => .inl h⟩
    | addProviderOp sender p =>
        simp only [runOp] at hr
        obtain ⟨_, rfl⟩ := addProvider_ok hr
        exact ⟨fun _ => rfl, fun _ => rfl, fun h => .inl h⟩
    | removeProviderOp sender p =>
        simp only [runOp] at hr
        obtain ⟨_, rfl⟩ := removeProvider_ok hr
        exact ⟨fun _ => rfl, fun _ => rfl, fun h => .inl h⟩
    | openBatchOp sender =>
        simp only [runOp] at hr
        obtain ⟨_, rfl⟩ := openBatchFn_ok hr
        refine ⟨fun habs => by simp [isSubmitRequestOrCallback] at habs, ?_, ?_⟩
        · intro hne
          show (if b = s.currentBatchId + 1 then _ else s.batches b).encryptedAggregate = _
          by_cases hbb : b = s.currentBatchId + 1
          · rw [h1 b (by omega)] at hne
            exact absurd rfl hne
          · rw [if_neg hbb]
        · intro _
          show (if b = s.currentBatchId + 1 then _ else s.batches b).encryptedAggregate = _ ∨
               (if b = s.currentBatchId + 1 then _ else s.batches b).encryptedAggregate = _
          by_cases hbb : b = s.currentBatchId + 1
          · subst hbb; rw [if_pos rfl]; exact .inr rfl
          · rw [if_neg hbb]; exact .inl (by assumption)
    | closeBatchOp sender bId =>
        simp only [runOp] at hr
        obtain ⟨_, _, rfl⟩ := closeBatch_ok hr
        have hagg : ((if bId = bId then { s.batches bId with isOpen := false }
                       else s.batches bId) : Batch).encryptedAggregate
                     = (s.batches bId).encryptedAggregate := by rw [if_pos rfl]
        have hkeep : ∀ b2 : Nat,
            ((if b2 = bId then { s.batches bId with isOpen := false }
               else s.batches b2) : Batch).encryptedAggregate
             = (s.batches b2).encryptedAggregate := by
          intro b2
          by_cases hbb : b2 = bId
          · subst hbb; rw [if_pos rfl]
          · rw [if_neg hbb]
        refine ⟨fun habs => by simp [isSubmitRequestOrCallback] at habs,
                fun _ => hkeep b, fun h => .inl ((hkeep b).trans h)⟩
    | submitOp sender t m sc =>
        simp only [runOp] at hr
        obtain ⟨_, _, _, _, _, _, rfl⟩ := submitEncryptedMod_ok hr
        have hkeep : ∀ b2 : Nat,
            ((if b2 = s.currentBatchId then
                { s.batches s.currentBatchId with
                  modIds := (s.batches s.currentBatchId).modIds ++ [m]
                  modCount := (s.batches s.currentBatchId).modCount + 1 }
              else s.batches b2) : Batch).encryptedAggregate
             = (s.batches b2).encryptedAggregate := by
          intro b2
          by_cases hbb : b2 = s.currentBatchId
          · subst hbb; rw [if_pos rfl]
          · rw [if_neg hbb]
        refine ⟨fun _ => hkeep b, fun _ => hkeep b, fun h => .inl ((hkeep b).trans h)⟩
    | requestOp sender t bId =>
        simp only [runOp] at hr
        obtain ⟨_, _, _, agg, _, rfl⟩ := requestBatchDecryption_ok hr
        exact ⟨fun _ => rfl, fun _ => rfl, fun h => .inl h⟩
    | callbackOp sender vp rid ct pf =>
        simp only [runOp] at hr
        obtain ⟨_, _, _, rfl, _⟩ := handleDecryptionCallback_ok hr
        exact ⟨fun _ => rfl, fun _ => rfl, fun h => .inl h⟩

/-- Witness for C3: in the state reached by `initialize`, batch 1's
aggregate is already written (to the encrypted zero), and a `pause` call
leaves it unchanged. -/
theorem c3_witness :
    ((exec (.pauseOp 1) (reach [.initializeOp 1])).batches 1).encryptedAggregate
      = ((reach [.initializeOp 1]).batches 1).encryptedAggregate :=
  (c3_aggregate_written_only_at_open (reach [.initializeOp 1])
    (reachable_wf ⟨[.initializeOp 1], by decide, rfl⟩) (.pauseOp 1) 1).2.1
    (by decide)

theorem c4State_wf : WF c4State := by
  refine ⟨fun _ _ => rfl, ?_, fun _ => ⟨rfl, rfl, fun _ => rfl⟩⟩
  intro r hr
  have hr' : 1 ≤ r := hr
  show (if r = 0 then _ else emptyCtx) = emptyCtx
  rw [if_neg (by omega)]

/-- **C4.** A decryption context that is already processed makes every
callback for its request id revert with `ReplayAttempt` first — whatever
the caller, the signature verdict, the cleartexts or the proof — and no
operation ever resets the `processed` flag to `false`. -/
theorem c4_replay_protection (s : State) (hw : WF s) (r : Nat)
    (hp : (s.decryptionContexts r).processed = true) :
    (∀ (sender : Nat) (vpOk : Bool) (ct pf : Nat),
        handleDecryptionCallback sender vpOk r ct pf s = .error .ReplayAttempt) ∧
    (∀ op : Op, ((exec op s).decryptionContexts r).processed = true) := by
  obtain ⟨h1, h2, h3⟩ := hw
  constructor
  · intro sender vpOk ct pf
    simp [handleDecryptionCallback, hp]
  · intro op
    cases hr : runOp op s with
    | error e => rw [exec_eq_of_error hr]; exact hp
    | ok p =>
      obtain ⟨s', ev⟩ := p
      rw [exec_eq_of_ok hr]
      cases op with
      | initializeOp sender =>
          simp only [runOp] at hr
          obtain ⟨_, rfl⟩ := initializeFn_ok hr
          exact hp
      | setCooldownIntervalOp sender n =>
          simp only [runOp] at hr
          obtain ⟨_, rfl⟩ := setCooldownInterval_ok hr
          exact hp
      | setMaxBatchSizeOp sender n =>
          simp only [runOp] at hr
          obtain ⟨_, _, rfl⟩ := setMaxBatchSize_ok hr
          exact hp
      | pauseOp sender =>
          simp only [runOp] at hr
          obtain ⟨_, rfl⟩ := pauseFn_ok hr
          exact hp
      | unpauseOp sender =>
          simp only [runOp] at hr
          obtain ⟨_, rfl⟩ := unpauseFn_ok hr
          exact hp
      | addProviderOp sender p2 =>
          simp only [runOp] at hr
          obtain ⟨_, rfl⟩ := addProvider_ok hr
          exact hp
      | removeProviderOp sender p2 =>
          simp only [runOp] at hr
          obtain ⟨_, rfl⟩ := removeProvider_ok hr
          exact hp
      | openBatchOp sender =>
          simp only [runOp] at hr
          obtain ⟨_, rfl⟩ := openBatchFn_ok hr
          exact hp
      | closeBatchOp sender bId =>
          simp only [runOp] at hr
          obtain ⟨_, _, rfl⟩ := closeBatch_ok hr
          exact hp
      | submitOp sender t m sc =>
          simp only [runOp] at hr
          obtain ⟨_, _, _, _, _, _, rfl⟩ := submitEncryptedMod_ok hr
          exact hp
      | requestOp sender t bId =>
          simp only [runOp] at hr
          obtain ⟨_, _, _, agg, _, rfl⟩ := requestBatchDecryption_ok hr
          show ((if r = s.nextRequestId then _ else s.decryptionContexts r)
                  : DecryptionContext).processed = true
          by_cases hge : s.nextRequestId ≤ r
          · rw [h2 r hge] at hp
            exact absurd hp (by simp [emptyCtx])
          · rw [if_neg (by omega)]
            exact hp
      | callbackOp sender vp rid ct pf =>
          simp only [runOp] at hr
          obtain ⟨_, _, _, rfl, _⟩ := handleDecryptionCallback_ok hr
          show ((if r = rid then
                   { s.decryptionContexts rid with processed := true }
                 else s.decryptionContexts r) : DecryptionContext).processed = true
          by_cases hbb : r = rid
          · rw [if_pos hbb]
          · rw [if_neg hbb]
            exact hp

/-- Witness for C4 at a concrete well-formed state holding a processed
context for request id 0. -/
theorem c4_witness :
    handleDecryptionCallback 2 true 0 15 0 c4State = .error .ReplayAttempt ∧
    ((exec (.requestOp 1 100 1) c4State).decryptionContexts 0).processed = true :=
  ⟨(c4_replay_protection c4State c4State_wf 0 rfl).1 2 true 15 0,
   (c4_replay_protection c4State c4State_wf 0 rfl).2 (.requestOp 1 100 1)⟩

/-- **C5.** `handleDecryptionCallback` has no `msg.sender` restriction in
the code; the oracle's invocation path is authenticated by
`FHE.checkSignatures` over `(requestId, cleartexts, proof)`. A call that
does not carry an oracle-validated payload (verdict `false`) always fails
— at the replay, state-hash or signature check — and leaves the state
unchanged, for every caller and every argument. -/
theorem c5_invalid_proof_always_reverts (s : State)
    (sender requestId cleartexts pf : Nat) :
    (∃ e, handleDecryptionCallback sender false requestId cleartexts pf s
            = .error e) ∧
    exec (.callbackOp sender false requestId cleartexts pf) s = s := by
  have herr : ∃ e, handleDecryptionCallback sender false requestId cleartexts pf s
      = .error e := by
    simp only [handleDecryptionCallback]
    split
    · exact ⟨.ReplayAttempt, rfl⟩
    · split
      · exact ⟨.InvalidStateHash, rfl⟩
      · exact ⟨.SignatureCheckFailed, by rw [if_pos (by simp)]⟩
  obtain ⟨e, he⟩ := herr
  exact ⟨⟨e, he⟩, exec_eq_of_error he⟩

/-- Counterexample for **C6** as stated: mod 7 is recorded (submitter 1),
yet a later `submitEncryptedMod(7, _)` by the same provider still inside
its cooldown reverts with `RateLimited`, and one by a non-provider reverts
with `NotProvider` — not `StaleWrite`: the guard modifiers run before the
uniqueness check. -/
theorem c6_counterexample :
    c6State.modSubmitters 7 = 1 ∧
    submitEncryptedMod 1 110 7 (.asEnc 4) c6State = .error .RateLimited ∧
    submitEncryptedMod 2 500 7 (.asEnc 4) c6State = .error .NotProvider :=
  ⟨rfl, rfl, rfl⟩

/-- **C6 (amended).** Once a mod identifier is recorded, every later
`submitEncryptedMod` with it *that passes the provider, pause and cooldown
guards* reverts with `StaleWrite`, regardless of the current batch, the
calling provider or the supplied score (the uniqueness check precedes the
batch checks); and `modSubmitters`, `modBatchIds` and `encryptedScores`
at that identifier are never written again by any operation. -/
theorem c6_amended_stale_write (s : State) (sender t modId : Nat) (sc : Handle)
    (hprov : s.isProvider sender = true) (hpaused : s.paused = false)
    (hcd : ¬ (t - s.lastSubmissionAt sender < s.cooldownInterval))
    (hrec : s.modSubmitters modId ≠ 0) :
    submitEncryptedMod sender t modId sc s = .error .StaleWrite ∧
    ∀ op : Op, (exec op s).modSubmitters modId = s.modSubmitters modId ∧
               (exec op s).modBatchIds modId = s.modBatchIds modId ∧
               (exec op s).encryptedScores modId = s.encryptedScores modId := by
  constructor
  · simp only [submitEncryptedMod, rateLimited]
    rw [if_neg (by simp [hprov]), if_neg (by simp [hpaused]), if_neg hcd]
    exact if_pos hrec
  · intro op
    cases hr : runOp op s with
    | error e => rw [exec_eq_of_error hr]; exact ⟨rfl, rfl, rfl⟩
    | ok p =>
      obtain ⟨s', ev⟩ := p
      rw [exec_eq_of_ok hr]
      cases op with
      | initializeOp sender2 =>
          simp only [runOp] at hr
          obtain ⟨_, rfl⟩ := initializeFn_ok hr
          exact ⟨rfl, rfl, rfl⟩
      | setCooldownIntervalOp sender2 n =>
          simp only [runOp] at hr
          obtain ⟨_, rfl⟩ := setCooldownInterval_ok hr
          exact ⟨rfl, rfl, rfl⟩
      | setMaxBatchSizeOp sender2 n =>
          simp only [runOp] at hr
          obtain ⟨_, _, rfl⟩ := setMaxBatchSize_ok hr
          exact ⟨rfl, rfl, rfl⟩
      | pauseOp sender2 =>
          simp only [runOp] at hr
          obtain ⟨_, rfl⟩ := pauseFn_ok hr
          exact ⟨rfl, rfl, rfl⟩
      | unpauseOp sender2 =>
          simp only [runOp] at hr
          obtain ⟨_, rfl⟩ := unpauseFn_ok hr
          exact ⟨rfl, rfl, rfl⟩
      | addProviderOp sender2 p2 =>
          simp only [runOp] at hr
          obtain ⟨_, rfl⟩ := addProvider_ok hr
          exact ⟨rfl, rfl, rfl⟩
      | removeProviderOp sender2 p2 =>
          simp only [runOp] at hr
          obtain ⟨_, rfl⟩ := removeProvider_ok hr
          exact ⟨rfl, rfl, rfl⟩
      | openBatchOp sender2 =>
          simp only [runOp] at hr
          obtain ⟨_, rfl⟩ := openBatchFn_ok hr
          exact ⟨rfl, rfl, rfl⟩
      | closeBatchOp sender2 bId =>
          simp only [runOp] at hr
          obtain ⟨_, _, rfl⟩ := closeBatch_ok hr
          exact ⟨rfl, rfl, rfl⟩
      | submitOp sender2 t2 m2 sc2 =>
          simp only [runOp] at hr
          obtain ⟨_, _, _, hfresh, _, _, rfl⟩ := submitEncryptedMod_ok hr
          have hne : modId ≠ m2 := by
            intro hcontra
            rw [hcontra] at hrec
            exact hrec hfresh
          refine ⟨?_, ?_, ?_⟩
          · show (if modId = m2 then sender2 else s.modSubmitters modId) = _
            rw [if_neg hne]
          · show (if modId = m2 then s.currentBatchId else s.modBatchIds modId) = _
            rw [if_neg hne]
          · show (if modId = m2 then sc2 else s.encryptedScores modId) = _
            rw [if_neg hne]
      | requestOp sender2 t2 bId =>
          simp only [runOp] at hr
          obtain ⟨_, _, _, agg, _, rfl⟩ := requestBatchDecryption_ok hr
          exact ⟨rfl, rfl, rfl⟩
      | callbackOp sender2 vp rid ct pf =>
          simp only [runOp] at hr
          obtain ⟨_, _, _, rfl, _⟩ := handleDecryptionCallback_ok hr
          exact ⟨rfl, rfl, rfl⟩

/-- Witness for C6 (amended): after the cooldown has elapsed, the
recording provider itself gets `StaleWrite` on mod 7, and an
`openBatch` call leaves the submission record unchanged. -/
theorem c6_witness :
    submitEncryptedMod 1 500 7 (.asEnc 4) c6State = .error .StaleWrite ∧
    (exec (.openBatchOp 1) c6State).modSubmitters 7 = c6State.modSubmitters 7 := by
  have h := c6_amended_stale_write c6State 1 500 7 (.asEnc 4)
    (by decide) (by decide) (by decide) (by decide)
  exact ⟨h.1, (h.2 (.openBatchOp 1)).1⟩

/-- Counterexample for **C7** as stated: `c7State` is reachable (two
successful submissions while `maxBatchSize = 100`, then the owner lowers
the bound to 1), yet batch 1 holds 2 submissions while `maxBatchSize = 1`
— so "every batch's modCount is at most maxBatchSize in every reachable
state" fails. -/
theorem c7_counterexample :
    (c7State.batches 1).modCount = 2 ∧ c7State.maxBatchSize = 1 ∧
    Reachable c7State :=
  ⟨rfl, rfl,
   ⟨[.initializeOp 1, .submitOp 1 100 1 (.asEnc 1), .submitOp 1 200 2 (.asEnc 2),
     .setMaxBatchSizeOp 1 1], by decide, rfl⟩⟩

/-- **C7 (amended).** A submission that passes the provider, pause,
cooldown, uniqueness and batch-open checks reverts with `BatchFull` when
the current batch's count has reached `maxBatchSize`, and succeeds
(incrementing the count, leaving the bound unchanged) when the count is
strictly below; consequently `modCount ≤ maxBatchSize` is preserved by
every operation except `setMaxBatchSize`, which may lower the bound below
an existing batch's count. -/
theorem c7_amended_capacity (s : State) (sender t modId : Nat) (sc : Handle)
    (hprov : s.isProvider sender = true) (hpaused : s.paused = false)
    (hcd : ¬ (t - s.lastSubmissionAt sender < s.cooldownInterval))
    (hfresh : s.modSubmitters modId = 0)
    (hopen : (s.batches s.currentBatchId).isOpen = true) :
    ((s.batches s.currentBatchId).modCount ≥ s.maxBatchSize →
        submitEncryptedMod sender t modId sc s = .error .BatchFull) ∧
    ((s.batches s.currentBatchId).modCount < s.maxBatchSize →
        ∃ s' ev, submitEncryptedMod sender t modId sc s = .ok (s', ev) ∧
          (s'.batches s.currentBatchId).modCount
            = (s.batches s.currentBatchId).modCount + 1 ∧
          s'.maxBatchSize = s.maxBatchSize) ∧
    (∀ op : Op, isSetMaxBatchSizeOp op = false →
        (∀ b, (s.batches b).modCount ≤ s.maxBatchSize) →
        ∀ b, ((exec op s).batches b).modCount ≤ (exec op s).maxBatchSize) := by
  refine ⟨?_, ?_, ?_⟩
  · intro hge
    rw [submitEncryptedMod_guards sender t modId sc s hprov hpaused hcd,
        if_neg (by simp [hfresh]), if_neg (by simp [hopen])]
    exact if_pos hge
  · intro hlt
    rw [submitEncryptedMod_guards sender t modId sc s hprov hpaused hcd,
        if_neg (by simp [hfresh]), if_neg (by simp [hopen]), if_neg (by omega)]
    refine ⟨_, _, rfl, ?_, rfl⟩
    show ((if s.currentBatchId = s.currentBatchId then _ else _) : Batch).modCount = _
    rw [if_pos rfl]
  · intro op hnotmax hinv b
    cases hr : runOp op s with
    | error e => rw [exec_eq_of_error hr]; exact hinv b
    | ok p =>
      obtain ⟨s', ev⟩ := p
      rw [exec_eq_of_ok hr]
      cases op with
      | initializeOp sender2 =>
          simp only [runOp] at hr
          obtain ⟨_, rfl⟩ := initializeFn_ok hr
          show ((if b = 1 then _ else s.batches b) : Batch).modCount ≤ s.maxBatchSize
          by_cases hbb : b = 1
          · rw [if_pos hbb]; exact Nat.zero_le _
          · rw [if_neg hbb]; exact hinv b
      | setCooldownIntervalOp sender2 n =>
          simp only [runOp] at hr
          obtain ⟨_, rfl⟩ := setCooldownInterval_ok hr
          exact hinv b
      | setMaxBatchSizeOp sender2 n =>
          simp [isSetMaxBatchSizeOp] at hnotmax
      | pauseOp sender2 =>
          simp only [runOp] at hr
          obtain ⟨_, rfl⟩ := pauseFn_ok hr
          exact hinv b
      | unpauseOp sender2 =>
          simp only [runOp] at hr
          obtain ⟨_, rfl⟩ := unpauseFn_ok hr
          exact hinv b
      | addProviderOp sender2 p2 =>
          simp only [runOp] at hr
          obtain ⟨_, rfl⟩ := addProvider_ok hr
          exact hinv b
      | removeProviderOp sender2 p2 =>
          simp only [runOp] at hr
          obtain ⟨_, rfl⟩ := removeProvider_ok hr
          exact hinv b
      | openBatchOp sender2 =>
          simp only [runOp] at hr
          obtain ⟨_, rfl⟩ := openBatchFn_ok hr
          show ((if b = s.currentBatchId + 1 then _ else s.batches b) : Batch).modCount
                 ≤ s.maxBatchSize
          by_cases hbb : b = s.currentBatchId + 1
          · rw [if_pos hbb]; exact Nat.zero_le _
          · rw [if_neg hbb]; exact hinv b
      | closeBatchOp sender2 bId =>
          simp only [runOp] at hr
          obtain ⟨_, _, rfl⟩ := closeBatch_ok hr
          show ((if b = bId then { s.batches bId with isOpen := false }
                  else s.batches b) : Batch).modCount ≤ s.maxBatchSize
          by_cases hbb : b = bId
          · rw [if_pos hbb]
            exact hinv bId
          · rw [if_neg hbb]; exact hinv b
      | submitOp sender2 t2 m2 sc2 =>
          simp only [runOp] at hr
          obtain ⟨_, _, _, _, _, hfull, rfl⟩ := submitEncryptedMod_ok hr
          show ((if b = s.currentBatchId then
                   { s.batches s.currentBatchId with
                     modIds := (s.batches s.currentBatchId).modIds ++ [m2]
                     modCount := (s.batches s.currentBatchId).modCount + 1 }
                 else s.batches b) : Batch).modCount ≤ s.maxBatchSize
          by_cases hbb : b = s.currentBatchId
          · rw [if_pos hbb]
            show (s.batches s.currentBatchId).modCount + 1 ≤ s.maxBatchSize
            omega
          · rw [if_neg hbb]; exact hinv b
      | requestOp sender2 t2 bId =>
          simp only [runOp] at hr
          obtain ⟨_, _, _, agg, _, rfl⟩ := requestBatchDecryption_ok hr
          exact hinv b
      | callbackOp sender2 vp rid ct pf =>
          simp only [runOp] at hr
          obtain ⟨_, _, _, rfl, _⟩ := handleDecryptionCallback_ok hr
          exact hinv b

/-- Witness for C7 (amended): with `maxBatchSize = 1` and batch 1 already
holding one submission, the next guarded submission reverts `BatchFull`. -/
theorem c7_witness :
    submitEncryptedMod 1 200 2 (.asEnc 9) c7bState = .error .BatchFull := by
  have h := c7_amended_capacity c7bState 1 200 2 (.asEnc 9)
    (by decide) (by decide) (by decide) (by decide) (by decide)
  exact h.1 (by decide)

theorem closed_batch_step (op : Op) (s : State) (b : Nat) (hs : op.sender ≠ 0)
    (h : WF s ∧ (s.batches b).isOpen = false ∧
         (s.batches b).encryptedAggregate ≠ Handle.uninit) :
    WF (exec op s) ∧ ((exec op s).batches b).isOpen = false ∧
      ((exec op s).batches b).encryptedAggregate ≠ Handle.uninit := by
  obtain ⟨hw, hclosed, hagg⟩ := h
  refine ⟨exec_preserves_wf op s hs hw, ?_⟩
  obtain ⟨h1, h2, h3⟩ := hw
  cases hr : runOp op s with
  | error e => rw [exec_eq_of_error hr]; exact ⟨hclosed, hagg⟩
  | ok p =>
    obtain ⟨s', ev⟩ := p
    rw [exec_eq_of_ok hr]
    cases op with
    | initializeOp sender =>
        simp only [runOp] at hr
        obtain ⟨hinit, rfl⟩ := initializeFn_ok hr
        rw [(h3 hinit).2.2 b] at hagg
        exact absurd rfl hagg
    | setCooldownIntervalOp sender n =>
        simp only [runOp] at hr
        obtain ⟨_, rfl⟩ := setCooldownInterval_ok hr
        exact ⟨hclosed, hagg⟩
    | setMaxBatchSizeOp sender n =>
        simp only [runOp] at hr
        obtain ⟨_, _, rfl⟩ := setMaxBatchSize_ok hr
        exact ⟨hclosed, hagg⟩
    | pauseOp sender =>
        simp only [runOp] at hr
        obtain ⟨_, rfl⟩ := pauseFn_ok hr
        exact ⟨hclosed, hagg⟩
    | unpauseOp sender =>
        simp only [runOp] at hr
        obtain ⟨_, rfl⟩ := unpauseFn_ok hr
        exact ⟨hclosed, hagg⟩
    | addProviderOp sender p2 =>
        simp only [runOp] at hr
        obtain ⟨_, rfl⟩ := addProvider_ok hr
        exact ⟨hclosed, hagg⟩
    | removeProviderOp sender p2 =>
        simp only [runOp] at hr
        obtain ⟨_, rfl⟩ := removeProvider_ok hr
        exact ⟨hclosed, hagg⟩
    | openBatchOp sender =>
        simp only [runOp] at hr
        obtain ⟨_, rfl⟩ := openBatchFn_ok hr
        have hne : b ≠ s.currentBatchId + 1 := by
          intro hcontra
          rw [h1 b (by omega)] at hagg
          exact absurd rfl hagg
        constructor
        · show ((if b = s.currentBatchId + 1 then _ else s.batches b) : Batch).isOpen = false
          rw [if_neg hne]
          exact hclosed
        · show ((if b = s.currentBatchId + 1 then _ else s.batches b) : Batch).encryptedAggregate
              ≠ Handle.uninit
          rw [if_neg hne]
          exact hagg
    | closeBatchOp sender bId =>
        simp only [runOp] at hr
        obtain ⟨_, _, rfl⟩ := closeBatch_ok hr
        constructor
        · show ((if b = bId then { s.batches bId with isOpen := false }
                  else s.batches b) : Batch).isOpen = false
          by_cases hbb : b = bId
          · rw [if_pos hbb]
          · rw [if_neg hbb]; exact hclosed
        · show ((if b = bId then { s.batches bId with isOpen := false }
                  else s.batches b) : Batch).encryptedAggregate ≠ Handle.uninit
          by_cases hbb : b = bId
          · rw [if_pos hbb]
            show (s.batches bId).encryptedAggregate ≠ Handle.uninit
            rw [← hbb]
            exact hagg
          · rw [if_neg hbb]; exact hagg
    | submitOp sender t m sc =>
        simp only [runOp] at hr
        obtain ⟨_, _, _, _, hopen, _, rfl⟩ := submitEncryptedMod_ok hr
        have hne : b ≠ s.currentBatchId := by
          intro hcontra
          rw [← hcontra] at hopen
          rw [hclosed] at hopen
          cases hopen
        constructor
        · show ((if b = s.currentBatchId then _ else s.batches b) : Batch).isOpen = false
          rw [if_neg hne]
          exact hclosed
        · show ((if b = s.currentBatchId then _ else s.batches b) : Batch).encryptedAggregate
              ≠ Handle.uninit
          rw [if_neg hne]
          exact hagg
    | requestOp sender t bId =>
        simp only [runOp] at hr
        obtain ⟨_, _, _, agg, _, rfl⟩ := requestBatchDecryption_ok hr
        exact ⟨hclosed, hagg⟩
    | callbackOp sender vp rid ct pf =>
        simp only [runOp] at hr
        obtain ⟨_, _, _, rfl, _⟩ := handleDecryptionCallback_ok hr
        exact ⟨hclosed, hagg⟩

theorem closed_batch_foldl (l : List Op) (s : State) (b : Nat) (hl : GoodTrace l)
    (h : WF s ∧ (s.batches b).isOpen = false ∧
         (s.batches b).encryptedAggregate ≠ Handle.uninit) :
    WF (l.foldl (fun t op => exec op t) s) ∧
    ((l.foldl (fun t op => exec op t) s).batches b).isOpen = false ∧
    ((l.foldl (fun t op => exec op t) s).batches b).encryptedAggregate ≠ Handle.uninit := by
  induction l generalizing s with
  | nil => exact h
  | cons op rest ih =>
      exact ih (exec op s) (fun o ho => hl o (List.mem_cons_of_mem op ho))
        (closed_batch_step op s b (hl op (List.mem_cons_self op rest)) h)

/-- Counterexample for **C8** as stated: (i) `closeBatch(1)` by a non-owner
fails although batch 1 is open — "succeeds iff isOpen" has an implicit
owner condition; (ii) after batch 1 is closed and still current, a
submission attempt reusing the recorded mod 7 reverts `StaleWrite`, not
`BatchNotOpen` — the uniqueness check runs first. -/
theorem c8_counterexample :
    ((reach [.initializeOp 1]).batches 1).isOpen = true ∧
    closeBatch 2 1 (reach [.initializeOp 1]) = .error .NotOwner ∧
    (c8State.batches 1).isOpen = false ∧
    c8State.currentBatchId = 1 ∧
    submitEncryptedMod 1 200 7 (.asEnc 9) c8State = .error .StaleWrite :=
  ⟨rfl, rfl, rfl, rfl, rfl⟩

/-- **C8 (amended).** (i) `closeBatch(b)` called by the owner succeeds iff
`batches[b].isOpen`; (ii) once a batch that was opened (its aggregate is
written) is closed, it stays closed along every further trace of calls by
real (nonzero) senders — no operation reopens it; (iii) while a closed
batch is current, a submission that passes the guards and uses a fresh mod
identifier reverts with `BatchNotOpen`. -/
theorem c8_amended_close_terminal (s : State) (hw : WF s) (b : Nat) :
    (∀ sender, sender = s.owner →
        ((∃ s' ev, closeBatch sender b s = .ok (s', ev)) ↔
          (s.batches b).isOpen = true)) ∧
    ((s.batches b).isOpen = false →
        (s.batches b).encryptedAggregate ≠ Handle.uninit →
        ∀ l : List Op, GoodTrace l →
          ((l.foldl (fun t op => exec op t) s).batches b).isOpen = false) ∧
    (∀ (sender t modId : Nat) (sc : Handle),
        s.isProvider sender = true → s.paused = false →
        ¬ (t - s.lastSubmissionAt sender < s.cooldownInterval) →
        s.modSubmitters modId = 0 → s.currentBatchId = b →
        (s.batches b).isOpen = false →
        submitEncryptedMod sender t modId sc s = .error .BatchNotOpen) := by
  refine ⟨?_, ?_, ?_⟩
  · intro sender hsender
    constructor
    · rintro ⟨s', ev, hok⟩
      exact (closeBatch_ok hok).2.1
    · intro hopen
      refine ⟨{ s with batches := fun b2 =>
                  if b2 = b then { s.batches b with isOpen := false }
                  else s.batches b2 },
              [.BatchClosed b], ?_⟩
      simp only [closeBatch]
      rw [if_neg (by simp [hsender]), if_neg (by simp [hopen])]
  · intro hclosed hagg l hl
    exact (closed_batch_foldl l s b hl ⟨hw, hclosed, hagg⟩).2.1
  · intro sender t modId sc hprov hpaused hcd hfresh hcur hclosed
    rw [submitEncryptedMod_guards sender t modId sc s hprov hpaused hcd,
        if_neg (by simp [hfresh])]
    rw [hcur]
    exact if_pos (by simp [hclosed])

/-- Witness for C8 (amended): batch 1 of `c8State` is closed and stays
closed after a further `openBatch` call, and a fresh-mod submission while
it is current reverts `BatchNotOpen`. -/
theorem c8_witness :
    (([Op.openBatchOp 1].foldl (fun t op => exec op t) c8State).batches 1).isOpen
        = false ∧
    submitEncryptedMod 1 200 8 (.asEnc 9) c8State = .error .BatchNotOpen := by
  have h := c8_amended_close_terminal c8State
    (reachable_wf ⟨[.initializeOp 1, .submitOp 1 100 7 (.asEnc 1), .closeBatchOp 1 1],
      by decide, rfl⟩) 1
  exact ⟨h.2.1 (by decide) (by decide) [.openBatchOp 1] (by decide),
         h.2.2 1 200 8 (.asEnc 9) (by decide) (by decide) (by decide) (by decide)
           (by decide) (by decide)⟩

/-- **C9.** The `rateLimited` guard, per action kind: it reverts with
`RateLimited` iff `block.timestamp - last < cooldownInterval` (the
hypotheses `h1`, `h2` record that stored stamps never exceed the current
block time, under which the model's truncated `Nat` subtraction coincides
with the EVM's checked `uint256` subtraction); on success it stamps the
caller's per-action timestamp to the current time — before the guarded
body runs, as the last two conjuncts observe through the full calls — and
the two action kinds use independent per-address timestamp maps. -/
theorem c9_cooldown_guard (s : State) (a t : Nat)
    (h1 : s.lastSubmissionAt a ≤ t) (h2 : s.lastRequestAt a ≤ t) :
    (rateLimited .submit a t s = .error .RateLimited ↔
        t - s.lastSubmissionAt a < s.cooldownInterval) ∧
    (rateLimited .request a t s = .error .RateLimited ↔
        t - s.lastRequestAt a < s.cooldownInterval) ∧
    (∀ s1, rateLimited .submit a t s = .ok s1 →
        s1.lastSubmissionAt a = t ∧ s1.lastRequestAt = s.lastRequestAt ∧
        ∀ x, x ≠ a → s1.lastSubmissionAt x = s.lastSubmissionAt x) ∧
    (∀ s1, rateLimited .request a t s = .ok s1 →
        s1.lastRequestAt a = t ∧ s1.lastSubmissionAt = s.lastSubmissionAt ∧
        ∀ x, x ≠ a → s1.lastRequestAt x = s.lastRequestAt x) ∧
    (∀ (modId : Nat) (sc : Handle) (s' : State) (ev : List Event),
        submitEncryptedMod a t modId sc s = .ok (s', ev) →
        s'.lastSubmissionAt a = t ∧ s'.lastRequestAt = s.lastRequestAt) ∧
    (∀ (bId : Nat) (s' : State) (ev : List Event),
        requestBatchDecryption a t bId s = .ok (s', ev) →
        s'.lastRequestAt a = t ∧ s'.lastSubmissionAt = s.lastSubmissionAt) := by
  refine ⟨?_, ?_, ?_, ?_, ?_, ?_⟩
  · constructor
    · intro he
      by_contra hc
      simp only [rateLimited] at he
      rw [if_neg hc] at he
      cases he
    · intro hc
      exact if_pos hc
  · constructor
    · intro he
      by_contra hc
      simp only [rateLimited] at he
      rw [if_neg hc] at he
      cases he
    · intro hc
      exact if_pos hc
  · intro s1 hok
    simp only [rateLimited] at hok
    split at hok
    · exact absurd hok (by simp)
    · simp only [Except.ok.injEq] at hok
      subst hok
      refine ⟨by simp, rfl, ?_⟩
      intro x hx
      show (if x = a then t else s.lastSubmissionAt x) = _
      rw [if_neg hx]
  · intro s1 hok
    simp only [rateLimited] at hok
    split at hok
    · exact absurd hok (by simp)
    · simp only [Except.ok.injEq] at hok
      subst hok
      refine ⟨by simp, rfl, ?_⟩
      intro x hx
      show (if x = a then t else s.lastRequestAt x) = _
      rw [if_neg hx]
  · intro modId sc s' ev hok
    obtain ⟨_, _, _, _, _, _, rfl⟩ := submitEncryptedMod_ok hok
    exact ⟨by simp, rfl⟩
  · intro bId s' ev hok
    obtain ⟨_, _, _, agg, _, rfl⟩ := requestBatchDecryption_ok hok
    exact ⟨by simp, rfl⟩

/-- Witness for C9 at the deployment state. -/
theorem c9_witness :
    rateLimited .submit 1 100 initialState = .error .RateLimited ↔
      100 - initialState.lastSubmissionAt 1 < initialState.cooldownInterval :=
  (c9_cooldown_guard initialState 1 100 (by decide) (by decide)).1

/-- **C10.** `requestBatchDecryption(b)` by a non-paused caller passing the
cooldown check: it reverts with `InvalidBatch` iff the batch has zero
submissions; if any score handle in the batch's recorded list is
uninitialized the whole call aborts with the "score not initialized"
revert; otherwise it succeeds and the stored context's state hash commits
to the aggregate obtained by folding `FHE.add` over every submission's
score handle in the batch's recorded insertion order, starting from
`_initIfNeeded` of the stored aggregate (the encrypted-zero handle when
none is initialized). -/
theorem c10_request_refolds (s : State) (sender t b : Nat)
    (hpaused : s.paused = false) (hle : s.lastRequestAt sender ≤ t)
    (hcd : ¬ (t - s.lastRequestAt sender < s.cooldownInterval)) :
    ((s.batches b).modCount = 0 →
        requestBatchDecryption sender t b s = .error .InvalidBatch) ∧
    ((s.batches b).modCount ≠ 0 →
        (∃ m ∈ (s.batches b).modIds, (s.encryptedScores m).isInitialized = false) →
        requestBatchDecryption sender t b s = .error .ScoreNotInitialized) ∧
    ((s.batches b).modCount ≠ 0 →
        (∀ m ∈ (s.batches b).modIds, (s.encryptedScores m).isInitialized = true) →
        ∃ s' ev, requestBatchDecryption sender t b s = .ok (s', ev) ∧
          s'.decryptionContexts s.nextRequestId =
            { batchId := b
              stateHash := hashCiphertexts
                [(s.batches b).modIds.foldl
                  (fun acc m => Handle.add acc (s.encryptedScores m))
                  (initIfNeeded (s.batches b).encryptedAggregate)]
              processed := false
              requester := sender } ∧
          s'.nextRequestId = s.nextRequestId + 1) := by
  refine ⟨?_, ?_, ?_⟩
  · intro hzero
    rw [requestBatchDecryption_guards sender t b s hpaused hcd]
    exact if_pos hzero
  · intro hne hex
    rw [requestBatchDecryption_guards sender t b s hpaused hcd, if_neg hne,
        foldScores_uninit hex]
  · intro hne hall
    rw [requestBatchDecryption_guards sender t b s hpaused hcd, if_neg hne,
        foldScores_all_init hall]
    refine ⟨_, _, rfl, ?_, rfl⟩
    show (if s.nextRequestId = s.nextRequestId then _ else _) = _
    rw [if_pos rfl]

/-- Witness for C10: a request for the never-opened batch 2 (zero
submissions) reverts `InvalidBatch`, and one for batch 1 (one submission)
succeeds with the folded commitment. -/
theorem c10_witness :
    requestBatchDecryption 2 100 2 (reach [.initializeOp 1, .submitOp 1 100 7 (.asEnc 3)])
        = .error .InvalidBatch ∧
    ∃ s' ev,
      requestBatchDecryption 2 100 1 (reach [.initializeOp 1, .submitOp 1 100 7 (.asEnc 3)])
          = .ok (s', ev) ∧
      s'.decryptionContexts
          (reach [.initializeOp 1, .submitOp 1 100 7 (.asEnc 3)]).nextRequestId =
        { batchId := 1
          stateHash := hashCiphertexts
            [((reach [.initializeOp 1, .submitOp 1 100 7 (.asEnc 3)]).batches 1).modIds.foldl
              (fun acc m =>
                Handle.add acc
                  ((reach [.initializeOp 1, .submitOp 1 100 7 (.asEnc 3)]).encryptedScores m))
              (initIfNeeded
                ((reach [.initializeOp 1, .submitOp 1 100 7 (.asEnc 3)]).batches 1).encryptedAggregate)]
          processed := false
          requester := 2 } ∧
      s'.nextRequestId
        = (reach [.initializeOp 1, .submitOp 1 100 7 (.asEnc 3)]).nextRequestId + 1 := by
  constructor
  · exact (c10_request_refolds (reach [.initializeOp 1, .submitOp 1 100 7 (.asEnc 3)])
      2 100 2 (by decide) (by decide) (by decide)).1 (by decide)
  · exact (c10_request_refolds (reach [.initializeOp 1, .submitOp 1 100 7 (.asEnc 3)])
      2 100 1 (by decide) (by decide) (by decide)).2.2 (by decide) (by decide)

end ModIOFHE
